import Mathlib

/-!
Shallow embedding of the wasmuri-text glyph-atlas text renderer.

The embedding follows the Rust sources:
  * `src/character.rs` — `Character` (normalized texture rectangle plus pixel width);
  * `src/font.rs`      — `Font::new` (atlas packing), `Font::create_text_model`
                         (text layout building), `Font::render_text_model`;
  * `src/shaders.rs`   — `TextProgram` (render state cache over the GPU uniforms);
  * `src/model.rs`     — `TextModel::new` (vertex count bookkeeping);
  * `src/lib.rs`       — `TextRenderer::from_rc` / `start_rendering` (shared
                         selected-font slot).

Conventions of the embedding:
  * `f32`/`f64` values are embedded as `ℚ`. All float operations the claims
    depend on (division by positive integers, comparisons, equality tests)
    are monotone and exact on the small integers involved, so order facts
    transfer.  The f64 `sqrt().ceil()` in `Font::new` is embedded as the
    exact integer ceiling of the square root.
  * `u32`/`usize` become `Nat`; the only subtractions performed are shown to
    never underflow on the paths the theorems speak about.
  * the 2D rasterization surface is external to the crate: the measured
    character width/height pairs it produces are inputs (`CharInput`).
  * GPU calls are recorded as events (`GlCall`) so that claims about which
    calls are or are not issued can be stated against an explicit log.
  * the Rust `Vec` indexing `self.characters[text_char as usize]`, which
    aborts when the index is out of bounds, is embedded with `List.get?`:
    `none` marks the abort and `create_text_model` propagates it as
    `Except.error ()`.
-/

namespace WasmuriText

/-- Embeds `wasmuri_core::util::color::Color` (external crate): an RGBA
quadruple of bytes with derived structural equality, which is all the
render-state cache uses of it. -/
structure Color where
  red : Nat
  green : Nat
  blue : Nat
  alpha : Nat
deriving DecidableEq, Repr

/-- Embeds `Color::from_rgba`. -/
def Color.from_rgba (r g b a : Nat) : Color :=
  { red := r, green := g, blue := b, alpha := a }

/-- Embeds `Character` from `src/character.rs`: the four normalized texture
coordinates and the pixel width of one packed glyph. -/
structure Character where
  min_u : ℚ
  min_v : ℚ
  max_u : ℚ
  max_v : ℚ
  width : Nat
deriving DecidableEq, Repr

/-- Embeds `Character::new` (src/character.rs lines 14-24): divides the pixel
bounding box by `(texture dimension + 1)` and swaps min/max on the V axis
(`min_v` is computed from `max_y`, `max_v` from `min_y`). -/
def Character.new (texture_width texture_height min_x min_y max_x max_y : Nat) : Character :=
  let float_width : ℚ := (texture_width : ℚ) + 1
  let float_height : ℚ := (texture_height : ℚ) + 1
  { min_u := (min_x : ℚ) / float_width
    min_v := (max_y : ℚ) / float_height
    max_u := (max_x : ℚ) / float_width
    max_v := (min_y : ℚ) / float_height
    width := max_x - min_x + 1 }

/-- Embeds `Character::get_left_u`. -/
def Character.get_left_u (c : Character) : ℚ := c.min_u

/-- Embeds `Character::get_bottom_v`. -/
def Character.get_bottom_v (c : Character) : ℚ := c.min_v

/-- Embeds `Character::get_right_u`. -/
def Character.get_right_u (c : Character) : ℚ := c.max_u

/-- Embeds `Character::get_top_v`. -/
def Character.get_top_v (c : Character) : ℚ := c.max_v

/-- Embeds `Character::get_width`. -/
def Character.get_width (c : Character) : Nat := c.width

/-- One entry of the measurement loop in `Font::new`: a character code point
together with the width and height reported for it by the external canvas
rasterizer (`measure_text` and the offset-height probe). -/
structure CharInput where
  code : Nat
  width : Nat
  height : Nat
deriving DecidableEq, Repr

/-- The `char_sizes` vector built by the measurement loop of `Font::new`. -/
def char_sizes (inputs : List CharInput) : List (Nat × Nat) :=
  inputs.map (fun c => (c.width, c.height))

/-- The running `max_height` accumulator of the measurement loop of
`Font::new` (`if char_height > max_height { max_height = char_height }`). -/
def max_height (inputs : List CharInput) : Nat :=
  inputs.foldl (fun mh c => if c.height > mh then c.height else mh) 0

/-- The running `max_char_code` accumulator of the measurement loop of
`Font::new`. -/
def max_char_code (inputs : List CharInput) : Nat :=
  inputs.foldl (fun mc c => if c.code > mc then c.code else mc) 0

/-- Embeds `let line_margin = (2.0 * line_width * font_size as f64).ceil() as u32`
from `Font::new` (src/font.rs line 147); the `as u32` cast clamps negative
values to `0`, as `Int.toNat` does. -/
def line_margin (line_width : ℚ) (font_size : Nat) : Nat :=
  (Int.ceil (2 * line_width * (font_size : ℚ))).toNat

/-- Helper scan computing the least `k` with `n ≤ k * k`; structural in the
fuel so that concrete instances reduce definitionally. -/
def ceil_sqrt_scan (n : Nat) : Nat → Nat → Nat
  | 0, k => k
  | fuel + 1, k => if n ≤ k * k then k else ceil_sqrt_scan n fuel (k + 1)

/-- Embeds `let chars_per_row = (char_counter as f64).sqrt().ceil() as u32`
(src/font.rs line 185), with the f64 square root taken exactly: the least `k`
with `k * k ≥ n`. -/
def chars_per_row (n : Nat) : Nat :=
  ceil_sqrt_scan n n 0

/-- Embeds the `rows` computation of `Font::new` (src/font.rs lines 186-194):
`divided = char_counter / chars_per_row`, rounded up by one when the product
falls short of `char_counter`. -/
def atlas_rows (n cpr : Nat) : Nat :=
  let divided := n / cpr
  if divided * cpr ≥ n then divided else divided + 1

/-- Slicing a list into consecutive chunks of `k` elements (the semantics of
Rust's `slice::chunks` for `k ≥ 1`), via a structural fuel argument so that
concrete instances reduce definitionally. -/
def chunksOfFuel (k : Nat) : Nat → List α → List (List α)
  | 0, _ => []
  | _, [] => []
  | fuel + 1, x :: rest => (x :: rest.take (k - 1)) :: chunksOfFuel k fuel (rest.drop (k - 1))

/-- Embeds `char_sizes.chunks(chars_per_row as usize)` of `Font::new`. -/
def chunksOf (k : Nat) (l : List α) : List (List α) :=
  chunksOfFuel k l.length l

/-- The inner loop of the `total_width` computation of `Font::new`
(src/font.rs lines 201-209): accumulated `char_size.0 + 2 * line_margin`
over one row. -/
def row_width (m : Nat) (row : List (Nat × Nat)) : Nat :=
  row.foldl (fun cur cs => cur + (cs.1 + 2 * m)) 0

/-- Embeds the `total_width` computation of `Font::new` (src/font.rs lines
196-212): the maximum row width over the chunks of `char_sizes`, tracked with
a running `max_width` starting at `0`. -/
def atlas_width (m cpr : Nat) (sizes : List (Nat × Nat)) : Nat :=
  (chunksOf cpr sizes).foldl
    (fun mx row => if row_width m row > mx then row_width m row else mx) 0

/-- Embeds `let total_height = rows * max_height` of `Font::new`
(src/font.rs line 217). -/
def atlas_height (inputs : List CharInput) : Nat :=
  atlas_rows inputs.length (chars_per_row inputs.length) * max_height inputs

/-- Embeds the character placement loop of `Font::new` (src/font.rs lines
241-271): walks the measured characters, advancing `draw_x` by
`width + 2 * line_margin`, recording `Character::new` for each one, and
wrapping to the next row (resetting `draw_x`, advancing `min_y` by
`max_height`) once `chars_in_this_row` reaches `chars_per_row`. -/
def place_chars (tw th mh m cpr : Nat) :
    List CharInput → Nat → Nat → Nat → List (Option Character) → List (Option Character)
  | [], _, _, _, cmap => cmap
  | c :: rest, draw_x, min_y, cir, cmap =>
    let min_x := draw_x
    let draw_x2 := draw_x + c.width + 2 * m
    let max_x := draw_x2 - m
    let max_y := min_y + mh - 1
    let cmap2 := cmap.set c.code (some (Character.new tw th min_x min_y max_x max_y))
    if cir + 1 ≥ cpr then
      place_chars tw th mh m cpr rest 0 (min_y + mh) 0 cmap2
    else
      place_chars tw th mh m cpr rest draw_x2 min_y (cir + 1) cmap2

/-- Embeds `Font` from `src/font.rs`, restricted to the fields the claims
depend on: `max_text_height`, the dense code-point-indexed character table,
the font id and the aspect ratio used at render time. -/
structure Font where
  max_text_height : Nat
  aspect_ratio : ℚ
  id : Nat
  characters : List (Option Character)
deriving Repr

/-- Embeds the atlas-building part of `Font::new` (src/font.rs lines 130-304):
computes the line margin, the running maxima, the near-square grid, the atlas
pixel dimensions, and fills a `vec![None; max_char_code + 1]` character table
through the placement loop.  The initial aspect ratio is `1.0` as in the
source. -/
def Font.new (font_size : Nat) (line_width : ℚ) (font_id : Nat)
    (inputs : List CharInput) : Font :=
  let m := line_margin line_width font_size
  let mh := max_height inputs
  let mcc := max_char_code inputs
  let n := inputs.length
  let cpr := chars_per_row n
  let total_width := atlas_width m cpr (char_sizes inputs)
  let total_height := atlas_height inputs
  { max_text_height := mh
    aspect_ratio := 1
    id := font_id
    characters :=
      place_chars total_width total_height mh m cpr inputs 0 0 0
        (List.replicate (mcc + 1) none) }

/-- Embeds `TextModel` from `src/model.rs` together with the per-call data of
`Font::create_text_model`: the uploaded float buffer, the character count, the
vertex count computed by `TextModel::new` (`char_count * 6`), the logical
`total_width`, and the list of code points reported through
`console::log_1("No texture for character …")`. -/
structure TextModel where
  buffer_data : List ℚ
  char_count : Nat
  vertex_count : Nat
  total_width : ℚ
  diagnostics : List Nat
deriving Repr

/-- Embeds the first loop of `Font::create_text_model` (src/font.rs lines
343-379): for each character, look up `self.characters[text_char as usize]`
(`Except.error ()` marks the out-of-bounds abort of the Rust indexing), emit
the six-vertex position quad for a resolved character while advancing the
pen, leave the twelve pre-zeroed slots for an unresolved one and record the
diagnostic.  Returns the position floats, the final pen position and the
diagnostics, in source order. -/
def pos_pass (cmap : List (Option Character)) (pos_factor_x : ℚ) :
    List Nat → Nat → Except Unit (List ℚ × Nat × List Nat)
  | [], pos_x => Except.ok ([], pos_x, [])
  | c :: rest, pos_x =>
    match cmap.get? c with
    | none => Except.error ()
    | some none =>
      match pos_pass cmap pos_factor_x rest pos_x with
      | Except.error e => Except.error e
      | Except.ok (buf, px, ds) =>
          Except.ok (List.replicate 12 0 ++ buf, px, c :: ds)
    | some (some texture_char) =>
      let min_x : ℚ := (pos_x : ℚ) * pos_factor_x
      let pos_x2 := pos_x + texture_char.width
      let max_x : ℚ := (pos_x2 : ℚ) * pos_factor_x
      match pos_pass cmap pos_factor_x rest pos_x2 with
      | Except.error e => Except.error e
      | Except.ok (buf, px, ds) =>
          Except.ok ([min_x, 0, max_x, 0, max_x, 1, max_x, 1, min_x, 1, min_x, 0] ++ buf,
            px, ds)

/-- Embeds the second loop of `Font::create_text_model` (src/font.rs lines
383-416): the six-vertex texture-coordinate quad of each resolved character
(`left_u`/`bottom_v`/`right_u`/`top_v`), twelve pre-zeroed slots and a second
diagnostic for an unresolved one. -/
def uv_pass (cmap : List (Option Character)) :
    List Nat → Except Unit (List ℚ × List Nat)
  | [] => Except.ok ([], [])
  | c :: rest =>
    match cmap.get? c with
    | none => Except.error ()
    | some none =>
      match uv_pass cmap rest with
      | Except.error e => Except.error e
      | Except.ok (buf, ds) => Except.ok (List.replicate 12 0 ++ buf, c :: ds)
    | some (some tc) =>
      match uv_pass cmap rest with
      | Except.error e => Except.error e
      | Except.ok (buf, ds) =>
          Except.ok ([tc.get_left_u, tc.get_bottom_v,
            tc.get_right_u, tc.get_bottom_v,
            tc.get_right_u, tc.get_top_v,
            tc.get_right_u, tc.get_top_v,
            tc.get_left_u, tc.get_top_v,
            tc.get_left_u, tc.get_bottom_v] ++ buf, ds)

/-- Embeds `Font::create_text_model` (src/font.rs lines 322-425): counts the
characters, runs the position pass starting from pen `0` with
`pos_factor_x = 1.0 / max_text_height`, computes `max_width` from the final
pen, runs the texture-coordinate pass, and packages the result as
`TextModel::new` does (vertex count `6 * char_counter`). -/
def Font.create_text_model (font : Font) (text : List Nat) : Except Unit TextModel :=
  let char_counter := text.length
  let pos_factor_x : ℚ := 1 / (font.max_text_height : ℚ)
  match pos_pass font.characters pos_factor_x text 0 with
  | Except.error e => Except.error e
  | Except.ok (pos_buf, pos_x, diag1) =>
    let max_width : ℚ := (pos_x : ℚ) * pos_factor_x
    match uv_pass font.characters text with
    | Except.error e => Except.error e
    | Except.ok (uv_buf, diag2) =>
      Except.ok { buffer_data := pos_buf ++ uv_buf
                  char_count := char_counter
                  vertex_count := 6 * char_counter
                  total_width := max_width
                  diagnostics := diag1 ++ diag2 }

/-- The shader uniforms of `TextProgram` (src/shaders.rs), identified by their
GLSL names. -/
inductive Uniform where
  | texture_sampler
  | screen_position
  | scale
  | fill_color
  | stroke_color
  | background_color
deriving DecidableEq, Repr

/-- A GPU call issued by the crate, recorded for the instrumented-backend
claims about the render state cache. -/
inductive GlCall where
  | uniform2f (u : Uniform) (x y : ℚ)
  | uniform4f (u : Uniform) (c : Color)
  | uniform1i (u : Uniform) (v : Int)
  | active_texture (unit : Nat)
  | bind_texture (font_id : Nat)
  | use_program
  | enable_blend
  | blend_func_separate
  | bind_buffer (buffer_id : Nat)
  | vertex_attrib_pointer (attrib : Nat)
  | enable_vertex_attrib_array (attrib : Nat)
  | draw_arrays (vertex_count : Nat)
deriving DecidableEq, Repr

/-- Whether a recorded call is a shader-uniform write. -/
def GlCall.is_uniform_write : GlCall → Bool
  | GlCall.uniform2f _ _ _ => true
  | GlCall.uniform4f _ _ => true
  | GlCall.uniform1i _ _ => true
  | _ => false

/-- Whether a recorded call is a texture bind. -/
def GlCall.is_texture_bind : GlCall → Bool
  | GlCall.bind_texture _ => true
  | _ => false

/-- Embeds the cached-uniform fields of `TextProgram` (src/shaders.rs lines
66-71); the GPU handles themselves are external. -/
structure TextProgram where
  current_screen_position : ℚ × ℚ
  current_scale : ℚ × ℚ
  current_fill_color : Color
  current_stroke_color : Color
  current_background_color : Color
deriving DecidableEq, Repr

/-- Embeds the cache initialization of `TextProgram::create_instance`
(src/shaders.rs lines 133-138): both vec2 caches start at `(0.0, 0.0)` and the
three color caches start at `Color::from_rgba(0, 0, 0, 0)`. -/
def TextProgram.create_instance : TextProgram :=
  { current_screen_position := (0, 0)
    current_scale := (0, 0)
    current_fill_color := Color.from_rgba 0 0 0 0
    current_stroke_color := Color.from_rgba 0 0 0 0
    current_background_color := Color.from_rgba 0 0 0 0 }

/-- Embeds `TextProgram::set_texture_sampler`: an unconditional `uniform1i`. -/
def TextProgram.set_texture_sampler (texture_unit : Int) : List GlCall :=
  [GlCall.uniform1i Uniform.texture_sampler texture_unit]

/-- Embeds `TextProgram::set_screen_position` (src/shaders.rs lines 150-155):
writes `uniform2f` and updates the cache only when the requested pair differs
from the cached one. -/
def TextProgram.set_screen_position (p : TextProgram) (x y : ℚ) : TextProgram × List GlCall :=
  if p.current_screen_position ≠ (x, y) then
    ({ p with current_screen_position := (x, y) }, [GlCall.uniform2f Uniform.screen_position x y])
  else
    (p, [])

/-- Embeds `TextProgram::set_scale` (src/shaders.rs lines 157-162). -/
def TextProgram.set_scale (p : TextProgram) (x y : ℚ) : TextProgram × List GlCall :=
  if p.current_scale ≠ (x, y) then
    ({ p with current_scale := (x, y) }, [GlCall.uniform2f Uniform.scale x y])
  else
    (p, [])

/-- Embeds `TextProgram::set_background_color` (src/shaders.rs lines 168-173);
`set_color` issues the `uniform4f`. -/
def TextProgram.set_background_color (p : TextProgram) (background : Color) :
    TextProgram × List GlCall :=
  if p.current_background_color ≠ background then
    ({ p with current_background_color := background },
      [GlCall.uniform4f Uniform.background_color background])
  else
    (p, [])

/-- Embeds `TextProgram::set_fill_color` (src/shaders.rs lines 175-180). -/
def TextProgram.set_fill_color (p : TextProgram) (fill : Color) : TextProgram × List GlCall :=
  if p.current_fill_color ≠ fill then
    ({ p with current_fill_color := fill }, [GlCall.uniform4f Uniform.fill_color fill])
  else
    (p, [])

/-- Embeds `TextProgram::set_stroke_color` (src/shaders.rs lines 182-187). -/
def TextProgram.set_stroke_color (p : TextProgram) (stroke : Color) : TextProgram × List GlCall :=
  if p.current_stroke_color ≠ stroke then
    ({ p with current_stroke_color := stroke }, [GlCall.uniform4f Uniform.stroke_color stroke])
  else
    (p, [])

/-- The shared mutable state a render call reads and writes: the renderer-wide
`selected_font` slot (a `RefCell<Option<FontID>>` in `src/lib.rs`) and the
shader program's uniform cache. -/
structure RenderState where
  selected_font : Option Nat
  shader_program : TextProgram
deriving DecidableEq, Repr

/-- Embeds the state set up by `TextRenderer::from_rc` (src/lib.rs lines
95-110): no font selected yet, freshly created shader program. -/
def initial_render_state : RenderState :=
  { selected_font := none, shader_program := TextProgram.create_instance }

/-- Embeds `Font::set_current` (src/font.rs lines 427-432): activate texture
unit 0, bind this font's texture, set the sampler uniform. -/
def Font.set_current (font : Font) : List GlCall :=
  [GlCall.active_texture 0, GlCall.bind_texture font.id] ++
    TextProgram.set_texture_sampler 0

/-- Embeds `TextModel::bind` (src/model.rs lines 37-50): bind the model's
buffer and point both vertex attributes into it. -/
def text_model_bind_calls (text_buffer : Nat) : List GlCall :=
  [GlCall.bind_buffer text_buffer,
    GlCall.vertex_attrib_pointer 0, GlCall.enable_vertex_attrib_array 0,
    GlCall.vertex_attrib_pointer 1, GlCall.enable_vertex_attrib_array 1]

/-- Embeds `Font::render_text_model` (src/font.rs lines 464-490): rebind the
texture only when the shared slot does not already hold this font's id, then
run every cached uniform setter, bind the model and issue the draw call.
`text_buffer` stands for the model's GPU buffer handle and
`text_vertex_count` for `TextModel::get_vertex_count`. -/
def Font.render_text_model (font : Font) (text_buffer text_vertex_count : Nat)
    (offset_x offset_y scale_y : ℚ) (fill_color stroke_color background_color : Color)
    (st : RenderState) : RenderState × List GlCall :=
  let need_set_font : Bool :=
    match st.selected_font with
    | some font_id => font_id != font.id
    | none => true
  let set_font_calls := if need_set_font then font.set_current else []
  let selected2 := if need_set_font then some font.id else st.selected_font
  let scale_x := scale_y / font.aspect_ratio
  let (s1, c1) := st.shader_program.set_background_color background_color
  let (s2, c2) := s1.set_fill_color fill_color
  let (s3, c3) := s2.set_stroke_color stroke_color
  let (s4, c4) := s3.set_screen_position offset_x offset_y
  let (s5, c5) := s4.set_scale scale_x scale_y
  ({ selected_font := selected2, shader_program := s5 },
    set_font_calls ++ c1 ++ c2 ++ c3 ++ c4 ++ c5 ++
      text_model_bind_calls text_buffer ++ [GlCall.draw_arrays text_vertex_count])

/-- Embeds `TextRenderer::start_rendering` (src/lib.rs lines 185-210): the
shared selected-font slot is cleared unconditionally before anything else;
the shader/blend setup calls are issued only when a canvas is still bound. -/
def start_rendering (has_canvas : Bool) (st : RenderState) : RenderState × List GlCall :=
  let st2 : RenderState := { st with selected_font := none }
  if has_canvas then
    (st2, [GlCall.use_program, GlCall.enable_blend, GlCall.blend_func_separate])
  else
    (st2, [])

/-- Whether the character-table lookup of `create_text_model` finds a packed
glyph for code point `c` (the `Some(texture_char)` branch). -/
def resolvesB (cmap : List (Option Character)) (c : Nat) : Bool :=
  match cmap.get? c with
  | some (some _) => true
  | _ => false

/-- Whether code point `c` is inside the character table but has no packed
glyph (the `None` branch that logs "No texture for character …"). -/
def unknownB (cmap : List (Option Character)) (c : Nat) : Bool :=
  match cmap.get? c with
  | some none => true
  | _ => false

/-- The stored atlas pixel width used for pen advancement: the packed glyph's
`Character::get_width`, or `0` for a character that resolves to no glyph. -/
def char_width_of (cmap : List (Option Character)) (c : Nat) : Nat :=
  match cmap.get? c with
  | some (some ch) => ch.width
  | _ => 0

/-! ### Render state cache: helper lemmas -/

lemma set_screen_position_fst (p : TextProgram) (x y : ℚ) :
    (p.set_screen_position x y).1 = { p with current_screen_position := (x, y) } := by
  unfold TextProgram.set_screen_position
  split
  · rfl
  · rename_i h
    rw [not_not] at h
    rw [← h]

lemma set_scale_fst (p : TextProgram) (x y : ℚ) :
    (p.set_scale x y).1 = { p with current_scale := (x, y) } := by
  unfold TextProgram.set_scale
  split
  · rfl
  · rename_i h
    rw [not_not] at h
    rw [← h]

lemma set_fill_color_fst (p : TextProgram) (c : Color) :
    (p.set_fill_color c).1 = { p with current_fill_color := c } := by
  unfold TextProgram.set_fill_color
  split
  · rfl
  · rename_i h
    rw [not_not] at h
    rw [← h]

lemma set_stroke_color_fst (p : TextProgram) (c : Color) :
    (p.set_stroke_color c).1 = { p with current_stroke_color := c } := by
  unfold TextProgram.set_stroke_color
  split
  · rfl
  · rename_i h
    rw [not_not] at h
    rw [← h]

lemma set_background_color_fst (p : TextProgram) (c : Color) :
    (p.set_background_color c).1 = { p with current_background_color := c } := by
  unfold TextProgram.set_background_color
  split
  · rfl
  · rename_i h
    rw [not_not] at h
    rw [← h]

lemma set_screen_position_snd_eq (p : TextProgram) (x y : ℚ)
    (h : p.current_screen_position = (x, y)) : (p.set_screen_position x y).2 = [] := by
  simp [TextProgram.set_screen_position, h]

lemma set_scale_snd_eq (p : TextProgram) (x y : ℚ)
    (h : p.current_scale = (x, y)) : (p.set_scale x y).2 = [] := by
  simp [TextProgram.set_scale, h]

lemma set_fill_color_snd_eq (p : TextProgram) (c : Color)
    (h : p.current_fill_color = c) : (p.set_fill_color c).2 = [] := by
  simp [TextProgram.set_fill_color, h]

lemma set_stroke_color_snd_eq (p : TextProgram) (c : Color)
    (h : p.current_stroke_color = c) : (p.set_stroke_color c).2 = [] := by
  simp [TextProgram.set_stroke_color, h]

lemma set_background_color_snd_eq (p : TextProgram) (c : Color)
    (h : p.current_background_color = c) : (p.set_background_color c).2 = [] := by
  simp [TextProgram.set_background_color, h]

lemma render_text_model_fst (font : Font) (tb vc : Nat) (ox oy sy : ℚ)
    (fc sc bc : Color) (st : RenderState) :
    (font.render_text_model tb vc ox oy sy fc sc bc st).1 =
      { selected_font := some font.id
        shader_program :=
          { current_screen_position := (ox, oy)
            current_scale := (sy / font.aspect_ratio, sy)
            current_fill_color := fc
            current_stroke_color := sc
            current_background_color := bc } } := by
  unfold Font.render_text_model
  simp only [set_background_color_fst, set_fill_color_fst, set_stroke_color_fst,
    set_screen_position_fst, set_scale_fst]
  match h : st.selected_font with
  | none => simp
  | some fid =>
    by_cases hid : fid = font.id
    · simp [hid, h]
    · simp [hid, h]

lemma render_text_model_snd_cached (font : Font) (tb vc : Nat) (ox oy sy : ℚ)
    (fc sc bc : Color) (st : RenderState)
    (hsel : st.selected_font = some font.id)
    (h1 : st.shader_program.current_background_color = bc)
    (h2 : st.shader_program.current_fill_color = fc)
    (h3 : st.shader_program.current_stroke_color = sc)
    (h4 : st.shader_program.current_screen_position = (ox, oy))
    (h5 : st.shader_program.current_scale = (sy / font.aspect_ratio, sy)) :
    (font.render_text_model tb vc ox oy sy fc sc bc st).2 =
      text_model_bind_calls tb ++ [GlCall.draw_arrays vc] := by
  unfold Font.render_text_model TextProgram.set_background_color TextProgram.set_fill_color
    TextProgram.set_stroke_color TextProgram.set_screen_position TextProgram.set_scale
  simp [hsel, h1, h2, h3, h4, h5]

lemma start_rendering_fst (hc : Bool) (st : RenderState) :
    (start_rendering hc st).1 = { st with selected_font := none } := by
  unfold start_rendering
  split <;> rfl

/-- C7: rendering the same text model twice in a row with identical arguments
on the same font issues, on the second call, no GPU uniform write and no
texture bind: every call recorded by the second `render_text_model` is a
buffer bind, an attribute setup or the draw itself. -/
theorem c7_second_identical_render_issues_no_uniform_write_or_texture_bind
    (font : Font) (tb vc : Nat) (ox oy sy : ℚ) (fc sc bc : Color) (st : RenderState) :
    ((font.render_text_model tb vc ox oy sy fc sc bc
        (font.render_text_model tb vc ox oy sy fc sc bc st).1).2).all
      (fun call => !call.is_uniform_write && !call.is_texture_bind) = true := by
  rw [render_text_model_snd_cached font tb vc ox oy sy fc sc bc _
    (by rw [render_text_model_fst]) (by rw [render_text_model_fst])
    (by rw [render_text_model_fst]) (by rw [render_text_model_fst])
    (by rw [render_text_model_fst]) (by rw [render_text_model_fst])]
  simp [text_model_bind_calls, GlCall.is_uniform_write, GlCall.is_texture_bind]

/-- C8: `start_rendering` unconditionally clears the shared selected-font
slot, so the first `render_text_model` call after it always performs the
texture bind and the sampler-uniform set, whatever font was bound before. -/
theorem c8_start_rendering_clears_selected_font_and_forces_rebind
    (hc : Bool) (st : RenderState) (font : Font) (tb vc : Nat) (ox oy sy : ℚ)
    (fc sc bc : Color) :
    (start_rendering hc st).1.selected_font = none ∧
    GlCall.bind_texture font.id ∈
      (font.render_text_model tb vc ox oy sy fc sc bc (start_rendering hc st).1).2 ∧
    GlCall.uniform1i Uniform.texture_sampler 0 ∈
      (font.render_text_model tb vc ox oy sy fc sc bc (start_rendering hc st).1).2 := by
  rw [start_rendering_fst]
  refine ⟨rfl, ?_, ?_⟩ <;>
    simp [Font.render_text_model, Font.set_current, TextProgram.set_texture_sampler]

/-- C10: each cached-uniform setter of `TextProgram` modifies at most its own
cached field; all four other cached values are unchanged by any one call. -/
theorem c10_each_setter_preserves_all_other_cached_uniforms
    (p : TextProgram) (x y : ℚ) (c : Color) :
    ((p.set_screen_position x y).1.current_scale = p.current_scale ∧
      (p.set_screen_position x y).1.current_fill_color = p.current_fill_color ∧
      (p.set_screen_position x y).1.current_stroke_color = p.current_stroke_color ∧
      (p.set_screen_position x y).1.current_background_color = p.current_background_color) ∧
    ((p.set_scale x y).1.current_screen_position = p.current_screen_position ∧
      (p.set_scale x y).1.current_fill_color = p.current_fill_color ∧
      (p.set_scale x y).1.current_stroke_color = p.current_stroke_color ∧
      (p.set_scale x y).1.current_background_color = p.current_background_color) ∧
    ((p.set_fill_color c).1.current_screen_position = p.current_screen_position ∧
      (p.set_fill_color c).1.current_scale = p.current_scale ∧
      (p.set_fill_color c).1.current_stroke_color = p.current_stroke_color ∧
      (p.set_fill_color c).1.current_background_color = p.current_background_color) ∧
    ((p.set_stroke_color c).1.current_screen_position = p.current_screen_position ∧
      (p.set_stroke_color c).1.current_scale = p.current_scale ∧
      (p.set_stroke_color c).1.current_fill_color = p.current_fill_color ∧
      (p.set_stroke_color c).1.current_background_color = p.current_background_color) ∧
    ((p.set_background_color c).1.current_screen_position = p.current_screen_position ∧
      (p.set_background_color c).1.current_scale = p.current_scale ∧
      (p.set_background_color c).1.current_fill_color = p.current_fill_color ∧
      (p.set_background_color c).1.current_stroke_color = p.current_stroke_color) := by
  simp [set_screen_position_fst, set_scale_fst, set_fill_color_fst, set_stroke_color_fst,
    set_background_color_fst]

/-- C6, counterexample: the claim says the very first set of each item after
construction issues the GPU write for any requested value; but the uniform
caches of `TextProgram::create_instance` do not start in an `Unset` state —
they start at concrete zero values, so the very first `set_scale(0.0, 0.0)`
after construction issues no GPU call at all. -/
theorem c6_counterexample_first_zero_set_issues_no_call :
    TextProgram.create_instance.current_scale = (0, 0) ∧
    (TextProgram.create_instance.set_scale 0 0).2 = [] := by
  constructor
  · rfl
  · simp [TextProgram.set_scale, TextProgram.create_instance]

lemma set_screen_position_snd_no_bind (p : TextProgram) (x y : ℚ) :
    ∀ call ∈ (p.set_screen_position x y).2, call.is_texture_bind = false := by
  unfold TextProgram.set_screen_position
  split <;> simp [GlCall.is_texture_bind]

lemma set_scale_snd_no_bind (p : TextProgram) (x y : ℚ) :
    ∀ call ∈ (p.set_scale x y).2, call.is_texture_bind = false := by
  unfold TextProgram.set_scale
  split <;> simp [GlCall.is_texture_bind]

lemma set_fill_color_snd_no_bind (p : TextProgram) (c : Color) :
    ∀ call ∈ (p.set_fill_color c).2, call.is_texture_bind = false := by
  unfold TextProgram.set_fill_color
  split <;> simp [GlCall.is_texture_bind]

lemma set_stroke_color_snd_no_bind (p : TextProgram) (c : Color) :
    ∀ call ∈ (p.set_stroke_color c).2, call.is_texture_bind = false := by
  unfold TextProgram.set_stroke_color
  split <;> simp [GlCall.is_texture_bind]

lemma set_background_color_snd_no_bind (p : TextProgram) (c : Color) :
    ∀ call ∈ (p.set_background_color c).2, call.is_texture_bind = false := by
  unfold TextProgram.set_background_color
  split <;> simp [GlCall.is_texture_bind]

/-- C6, amended: every tracked render-state item follows a two-state write
cache, but the initial state of each uniform is `Set(zero value)` rather than
`Unset` — the screen position and scale caches start at `(0.0, 0.0)` and the
three color caches at fully transparent black, so a first set request equal
to that zero value issues no GPU call; only the shared selected-font slot
starts genuinely unset (`None`).  Every set request equal to the cached value
is a no-op, every differing request issues exactly the one GPU write and
updates the cache, and the font slot is rebound exactly when it does not
already hold the rendering font's id. -/
theorem c6_amended_two_state_cache_with_zero_initialized_uniforms :
    (initial_render_state.selected_font = none ∧
      initial_render_state.shader_program = TextProgram.create_instance ∧
      TextProgram.create_instance.current_screen_position = (0, 0) ∧
      TextProgram.create_instance.current_scale = (0, 0) ∧
      TextProgram.create_instance.current_fill_color = Color.from_rgba 0 0 0 0 ∧
      TextProgram.create_instance.current_stroke_color = Color.from_rgba 0 0 0 0 ∧
      TextProgram.create_instance.current_background_color = Color.from_rgba 0 0 0 0) ∧
    (∀ (p : TextProgram) (x y : ℚ),
      (p.set_screen_position x y).1.current_screen_position = (x, y) ∧
      ((p.set_screen_position x y).2 = [] ↔ p.current_screen_position = (x, y)) ∧
      (p.current_screen_position ≠ (x, y) →
        (p.set_screen_position x y).2 = [GlCall.uniform2f Uniform.screen_position x y])) ∧
    (∀ (p : TextProgram) (x y : ℚ),
      (p.set_scale x y).1.current_scale = (x, y) ∧
      ((p.set_scale x y).2 = [] ↔ p.current_scale = (x, y)) ∧
      (p.current_scale ≠ (x, y) →
        (p.set_scale x y).2 = [GlCall.uniform2f Uniform.scale x y])) ∧
    (∀ (p : TextProgram) (c : Color),
      (p.set_fill_color c).1.current_fill_color = c ∧
      ((p.set_fill_color c).2 = [] ↔ p.current_fill_color = c) ∧
      (p.current_fill_color ≠ c →
        (p.set_fill_color c).2 = [GlCall.uniform4f Uniform.fill_color c])) ∧
    (∀ (p : TextProgram) (c : Color),
      (p.set_stroke_color c).1.current_stroke_color = c ∧
      ((p.set_stroke_color c).2 = [] ↔ p.current_stroke_color = c) ∧
      (p.current_stroke_color ≠ c →
        (p.set_stroke_color c).2 = [GlCall.uniform4f Uniform.stroke_color c])) ∧
    (∀ (p : TextProgram) (c : Color),
      (p.set_background_color c).1.current_background_color = c ∧
      ((p.set_background_color c).2 = [] ↔ p.current_background_color = c) ∧
      (p.current_background_color ≠ c →
        (p.set_background_color c).2 = [GlCall.uniform4f Uniform.background_color c])) ∧
    (∀ (font : Font) (tb vc : Nat) (ox oy sy : ℚ) (fc sc bc : Color) (st : RenderState),
      (font.render_text_model tb vc ox oy sy fc sc bc st).1.selected_font = some font.id ∧
      (st.selected_font = some font.id →
        ((font.render_text_model tb vc ox oy sy fc sc bc st).2).all
          (fun call => !call.is_texture_bind) = true) ∧
      (st.selected_font ≠ some font.id →
        GlCall.bind_texture font.id ∈
          (font.render_text_model tb vc ox oy sy fc sc bc st).2)) := by
  refine ⟨⟨rfl, rfl, rfl, rfl, rfl, rfl, rfl⟩, ?_, ?_, ?_, ?_, ?_, ?_⟩
  · intro p x y
    refine ⟨by simp [set_screen_position_fst], ?_, ?_⟩
    · by_cases h : p.current_screen_position = (x, y) <;>
        simp [TextProgram.set_screen_position, h]
    · intro h
      simp [TextProgram.set_screen_position, h]
  · intro p x y
    refine ⟨by simp [set_scale_fst], ?_, ?_⟩
    · by_cases h : p.current_scale = (x, y) <;> simp [TextProgram.set_scale, h]
    · intro h
      simp [TextProgram.set_scale, h]
  · intro p c
    refine ⟨by simp [set_fill_color_fst], ?_, ?_⟩
    · by_cases h : p.current_fill_color = c <;> simp [TextProgram.set_fill_color, h]
    · intro h
      simp [TextProgram.set_fill_color, h]
  · intro p c
    refine ⟨by simp [set_stroke_color_fst], ?_, ?_⟩
    · by_cases h : p.current_stroke_color = c <;> simp [TextProgram.set_stroke_color, h]
    · intro h
      simp [TextProgram.set_stroke_color, h]
  · intro p c
    refine ⟨by simp [set_background_color_fst], ?_, ?_⟩
    · by_cases h : p.current_background_color = c <;>
        simp [TextProgram.set_background_color, h]
    · intro h
      simp [TextProgram.set_background_color, h]
  · intro font tb vc ox oy sy fc sc bc st
    refine ⟨by rw [render_text_model_fst], ?_, ?_⟩
    · intro hsel
      unfold Font.render_text_model
      simp [hsel, text_model_bind_calls, GlCall.is_texture_bind]
      exact ⟨set_background_color_snd_no_bind _ _, set_fill_color_snd_no_bind _ _,
        set_stroke_color_snd_no_bind _ _, set_screen_position_snd_no_bind _ _ _,
        set_scale_snd_no_bind _ _ _⟩
    · intro hsel
      unfold Font.render_text_model
      match h : st.selected_font with
      | none =>
        simp [h, Font.set_current, TextProgram.set_texture_sampler]
      | some fid =>
        have hne : fid ≠ font.id := by
          intro hcontra
          exact hsel (by rw [h, hcontra])
        simp [h, hne, Font.set_current, TextProgram.set_texture_sampler]

/-! ### Text layout builder: lemmas about the two buffer passes -/

lemma lt_length_of_resolvesB {cmap : List (Option Character)} {c : Nat}
    (h : resolvesB cmap c = true) : c < cmap.length := by
  by_contra hge
  rw [not_lt] at hge
  unfold resolvesB at h
  rw [List.get?_eq_none.mpr hge] at h
  simp at h

lemma pos_pass_ok (cmap : List (Option Character)) (f : ℚ) :
    ∀ (text : List Nat) (px : Nat), (∀ c ∈ text, c < cmap.length) →
    ∃ buf, pos_pass cmap f text px =
        Except.ok (buf, px + (text.map (char_width_of cmap)).sum,
          text.filter (unknownB cmap)) ∧
      buf.length = 12 * text.length := by
  intro text
  induction text with
  | nil =>
    intro px _
    exact ⟨[], by simp [pos_pass], by simp⟩
  | cons c rest ih =>
    intro px h
    have hc : c < cmap.length := h c (List.mem_cons_self c rest)
    have hr : ∀ x ∈ rest, x < cmap.length := fun x hx => h x (List.mem_cons_of_mem c hx)
    obtain ⟨oc, hoc⟩ : ∃ oc, cmap[c]? = some oc := by
      rw [List.getElem?_eq_getElem hc]
      exact ⟨_, rfl⟩
    match oc with
    | none =>
      obtain ⟨buf, hbuf, hlen⟩ := ih px hr
      refine ⟨List.replicate 12 0 ++ buf, ?_, ?_⟩
      · simp [pos_pass, hoc, hbuf, char_width_of, unknownB, List.filter_cons]
      · simp [hlen]
        ring
    | some tc =>
      obtain ⟨buf, hbuf, hlen⟩ := ih (px + tc.width) hr
      refine ⟨[(px : ℚ) * f, 0, ((px + tc.width : Nat) : ℚ) * f, 0,
        ((px + tc.width : Nat) : ℚ) * f, 1, ((px + tc.width : Nat) : ℚ) * f, 1,
        (px : ℚ) * f, 1, (px : ℚ) * f, 0] ++ buf, ?_, ?_⟩
      · simp [pos_pass, hoc, hbuf, char_width_of, unknownB, List.filter_cons, Nat.add_assoc]
      · simp [hlen]
        ring

lemma uv_pass_ok (cmap : List (Option Character)) :
    ∀ text : List Nat, (∀ c ∈ text, c < cmap.length) →
    ∃ buf, uv_pass cmap text = Except.ok (buf, text.filter (unknownB cmap)) ∧
      buf.length = 12 * text.length := by
  intro text
  induction text with
  | nil =>
    intro _
    exact ⟨[], by simp [uv_pass], by simp⟩
  | cons c rest ih =>
    intro h
    have hc : c < cmap.length := h c (List.mem_cons_self c rest)
    have hr : ∀ x ∈ rest, x < cmap.length := fun x hx => h x (List.mem_cons_of_mem c hx)
    obtain ⟨oc, hoc⟩ : ∃ oc, cmap[c]? = some oc := by
      rw [List.getElem?_eq_getElem hc]
      exact ⟨_, rfl⟩
    obtain ⟨buf, hbuf, hlen⟩ := ih hr
    match oc with
    | none =>
      refine ⟨List.replicate 12 0 ++ buf, ?_, ?_⟩
      · simp [uv_pass, hoc, hbuf, unknownB, List.filter_cons]
      · simp [hlen]
        ring
    | some tc =>
      refine ⟨[tc.get_left_u, tc.get_bottom_v, tc.get_right_u, tc.get_bottom_v,
        tc.get_right_u, tc.get_top_v, tc.get_right_u, tc.get_top_v,
        tc.get_left_u, tc.get_top_v, tc.get_left_u, tc.get_bottom_v] ++ buf, ?_, ?_⟩
      · simp [uv_pass, hoc, hbuf, unknownB, List.filter_cons]
      · simp [hlen]
        ring

lemma create_text_model_ok (font : Font) (text : List Nat)
    (h : ∀ c ∈ text, c < font.characters.length) :
    ∃ pos_buf uv_buf,
      font.create_text_model text = Except.ok
        { buffer_data := pos_buf ++ uv_buf
          char_count := text.length
          vertex_count := 6 * text.length
          total_width := ((text.map (char_width_of font.characters)).sum : ℚ) /
            (font.max_text_height : ℚ)
          diagnostics := text.filter (unknownB font.characters) ++
            text.filter (unknownB font.characters) } ∧
      pos_buf.length = 12 * text.length ∧ uv_buf.length = 12 * text.length := by
  obtain ⟨pos_buf, hpos, hpos_len⟩ := pos_pass_ok font.characters
    (1 / (font.max_text_height : ℚ)) text 0 h
  obtain ⟨uv_buf, huv, huv_len⟩ := uv_pass_ok font.characters text h
  refine ⟨pos_buf, uv_buf, ?_, hpos_len, huv_len⟩
  rw [one_div] at hpos
  unfold Font.create_text_model
  simp [hpos, huv, mul_one_div, div_eq_mul_inv]

/-- C2, counterexample: build an atlas for code points `3` and `5` (one row,
glyph widths 3, atlas `6 × 2`), then compile the text `[3, 4, 5]` whose middle
character has no atlas entry.  The layout does NOT contain only 2 glyphs'
worth of geometry: the buffer holds `72 = 24 × 3` floats (the unknown
character's 24 slots stay zero-filled), the draw count is `18 = 6 × 3`
vertices (the unknown character IS counted), and the unknown character is
reported twice (once per buffer pass), not once. -/
theorem c2_counterexample_unknown_char_counted_in_buffer_and_logged_twice :
    Except.map (fun tm => (tm.vertex_count, tm.buffer_data.length, tm.diagnostics))
        (Font.create_text_model (Font.new 10 0 0
          [{ code := 3, width := 3, height := 2 }, { code := 5, width := 3, height := 2 }])
          [3, 4, 5])
      = Except.ok (18, 72, [4, 4]) ∧
    (18 : Nat) ≠ 6 * 2 ∧ ([4, 4] : List Nat).length ≠ 1 := by
  refine ⟨?_, by decide, by decide⟩
  simp [Font.create_text_model, pos_pass, uv_pass, Font.new, place_chars, line_margin,
    chars_per_row, ceil_sqrt_scan, atlas_rows, atlas_height, atlas_width, chunksOf, chunksOfFuel,
    row_width, char_sizes, max_height, max_char_code, List.replicate, List.set,
    Character.new, Except.map]

/-- C2, amended: for any text whose code points are all within the character
table's bounds, `create_text_model` completes and produces a layout holding
`12N` position floats plus `12N` UV floats for N = ALL characters of the text
(an unknown character's 24 slots are left zero-filled rather than omitted),
a vertex/draw count of `6N` that also counts unknown characters, a
`total_width` that sums only the resolved characters' stored widths (the pen
is not advanced for unknown ones), and two recorded diagnostics — one per
buffer pass — for each unknown character. -/
theorem c2_amended_unknown_chars_zero_filled_unadvanced_and_logged_twice
    (font : Font) (text : List Nat) (h : ∀ c ∈ text, c < font.characters.length) :
    ∃ tm, font.create_text_model text = Except.ok tm ∧
      tm.char_count = text.length ∧
      tm.vertex_count = 6 * text.length ∧
      tm.buffer_data.length = 24 * text.length ∧
      tm.total_width = ((text.map (char_width_of font.characters)).sum : ℚ) /
        (font.max_text_height : ℚ) ∧
      tm.diagnostics = text.filter (unknownB font.characters) ++
        text.filter (unknownB font.characters) := by
  obtain ⟨pos_buf, uv_buf, heq, hp, hu⟩ := create_text_model_ok font text h
  refine ⟨_, heq, rfl, rfl, ?_, rfl, rfl⟩
  simp [hp, hu]
  ring

/-- C2, witness: the amended statement instantiated on the concrete two-glyph
atlas and the text `[3, 4, 5]` with unknown middle character. -/
theorem c2_amended_witness :
    (∀ c ∈ ([3, 4, 5] : List Nat), c < (Font.new 10 0 0
      [{ code := 3, width := 3, height := 2 },
        { code := 5, width := 3, height := 2 }]).characters.length) ∧
    (∃ tm, (Font.new 10 0 0
        [{ code := 3, width := 3, height := 2 },
          { code := 5, width := 3, height := 2 }]).create_text_model [3, 4, 5]
          = Except.ok tm ∧
      tm.char_count = ([3, 4, 5] : List Nat).length ∧
      tm.vertex_count = 6 * ([3, 4, 5] : List Nat).length ∧
      tm.buffer_data.length = 24 * ([3, 4, 5] : List Nat).length ∧
      tm.total_width = ((([3, 4, 5] : List Nat).map
          (char_width_of (Font.new 10 0 0
            [{ code := 3, width := 3, height := 2 },
              { code := 5, width := 3, height := 2 }]).characters)).sum : ℚ) /
        ((Font.new 10 0 0
          [{ code := 3, width := 3, height := 2 },
            { code := 5, width := 3, height := 2 }]).max_text_height : ℚ) ∧
      tm.diagnostics = ([3, 4, 5] : List Nat).filter (unknownB (Font.new 10 0 0
          [{ code := 3, width := 3, height := 2 },
            { code := 5, width := 3, height := 2 }]).characters) ++
        ([3, 4, 5] : List Nat).filter (unknownB (Font.new 10 0 0
          [{ code := 3, width := 3, height := 2 },
            { code := 5, width := 3, height := 2 }]).characters)) := by
  have hlen : (Font.new 10 0 0
      [{ code := 3, width := 3, height := 2 },
        { code := 5, width := 3, height := 2 }]).characters.length = 6 := by
    simp [Font.new, place_chars, line_margin, chars_per_row, ceil_sqrt_scan, atlas_rows, atlas_height,
      atlas_width, chunksOf, chunksOfFuel, row_width, char_sizes, max_height, max_char_code,
      List.replicate, List.set]
  have hhyp : ∀ c ∈ ([3, 4, 5] : List Nat), c < (Font.new 10 0 0
      [{ code := 3, width := 3, height := 2 },
        { code := 5, width := 3, height := 2 }]).characters.length := by
    rw [hlen]
    decide
  exact ⟨hhyp, c2_amended_unknown_chars_zero_filled_unadvanced_and_logged_twice _ _ hhyp⟩

/-- C3: the claim that `create_text_model` never aborts is wrong for
characters whose code point exceeds the largest code point of the character
set: the dense table built for code points `{3, 5}` has length 6, and
compiling the text `[6]` hits the out-of-bounds `Vec` index
`self.characters[text_char as usize]`, which aborts instead of skipping
(lib.rs's own documentation promises "the character will not be drawn"). -/
theorem c3_lookup_above_max_char_code_aborts :
    Font.create_text_model (Font.new 10 0 0
        [{ code := 3, width := 3, height := 2 }, { code := 5, width := 3, height := 2 }])
        [6]
      = Except.error () := by
  simp [Font.create_text_model, pos_pass, Font.new, place_chars, line_margin,
    chars_per_row, ceil_sqrt_scan, atlas_rows, atlas_height, atlas_width, chunksOf, chunksOfFuel,
    row_width, char_sizes, max_height, max_char_code, List.replicate, List.set,
    Character.new]

/-- C4: for a text of N characters that all resolve in the atlas, the built
layout's buffer is exactly 12N position floats followed by exactly 12N UV
floats, and `total_width` is the sum of the characters' stored atlas pixel
widths divided by the atlas's max glyph height. -/
theorem c4_all_resolved_geometry_and_total_width
    (font : Font) (text : List Nat)
    (h : ∀ c ∈ text, resolvesB font.characters c = true) :
    ∃ tm, font.create_text_model text = Except.ok tm ∧
      (∃ pos_buf uv_buf, tm.buffer_data = pos_buf ++ uv_buf ∧
        pos_buf.length = 12 * text.length ∧ uv_buf.length = 12 * text.length) ∧
      tm.total_width = ((text.map (char_width_of font.characters)).sum : ℚ) /
        (font.max_text_height : ℚ) := by
  have h' : ∀ c ∈ text, c < font.characters.length :=
    fun c hc => lt_length_of_resolvesB (h c hc)
  obtain ⟨pos_buf, uv_buf, heq, hp, hu⟩ := create_text_model_ok font text h'
  exact ⟨_, heq, ⟨pos_buf, uv_buf, rfl, hp, hu⟩, rfl⟩

/-- C4, witness: the statement instantiated on the concrete two-glyph atlas
and the fully resolved text `[3, 5]`. -/
theorem c4_all_resolved_witness :
    (∀ c ∈ ([3, 5] : List Nat), resolvesB (Font.new 10 0 0
      [{ code := 3, width := 3, height := 2 },
        { code := 5, width := 3, height := 2 }]).characters c = true) ∧
    (∃ tm, (Font.new 10 0 0
        [{ code := 3, width := 3, height := 2 },
          { code := 5, width := 3, height := 2 }]).create_text_model [3, 5]
          = Except.ok tm ∧
      (∃ pos_buf uv_buf, tm.buffer_data = pos_buf ++ uv_buf ∧
        pos_buf.length = 12 * ([3, 5] : List Nat).length ∧
        uv_buf.length = 12 * ([3, 5] : List Nat).length) ∧
      tm.total_width = ((([3, 5] : List Nat).map
          (char_width_of (Font.new 10 0 0
            [{ code := 3, width := 3, height := 2 },
              { code := 5, width := 3, height := 2 }]).characters)).sum : ℚ) /
        ((Font.new 10 0 0
          [{ code := 3, width := 3, height := 2 },
            { code := 5, width := 3, height := 2 }]).max_text_height : ℚ)) := by
  have hhyp : ∀ c ∈ ([3, 5] : List Nat), resolvesB (Font.new 10 0 0
      [{ code := 3, width := 3, height := 2 },
        { code := 5, width := 3, height := 2 }]).characters c = true := by
    simp [resolvesB, Font.new, place_chars, line_margin, chars_per_row, ceil_sqrt_scan,
      atlas_rows, atlas_height, atlas_width, chunksOf, chunksOfFuel, row_width, char_sizes, max_height,
      max_char_code, List.replicate, List.set]
  exact ⟨hhyp, c4_all_resolved_geometry_and_total_width _ _ hhyp⟩

/-! ### Atlas packer: fold, chunk and grid arithmetic lemmas -/

lemma place_chars_cons (tw th mh m cpr : Nat) (c : CharInput) (rest : List CharInput)
    (dx my cir : Nat) (cmap : List (Option Character)) :
    place_chars tw th mh m cpr (c :: rest) dx my cir cmap =
      if cir + 1 ≥ cpr then
        place_chars tw th mh m cpr rest 0 (my + mh) 0
          (cmap.set c.code (some (Character.new tw th dx my (dx + c.width + 2 * m - m)
            (my + mh - 1))))
      else
        place_chars tw th mh m cpr rest (dx + c.width + 2 * m) my (cir + 1)
          (cmap.set c.code (some (Character.new tw th dx my (dx + c.width + 2 * m - m)
            (my + mh - 1)))) := rfl

lemma foldl_if_max_acc_le (f : α → Nat) :
    ∀ (l : List α) (acc : Nat),
      acc ≤ l.foldl (fun mx v => if f v > mx then f v else mx) acc := by
  intro l
  induction l with
  | nil => intro acc; exact Nat.le_refl acc
  | cons x xs ih =>
    intro acc
    refine Nat.le_trans ?_ (ih (if f x > acc then f x else acc))
    split <;> omega

lemma foldl_if_max_mem_le (f : α → Nat) :
    ∀ (l : List α) (acc : Nat), ∀ x ∈ l,
      f x ≤ l.foldl (fun mx v => if f v > mx then f v else mx) acc := by
  intro l
  induction l with
  | nil => intro acc x hx; cases hx
  | cons y ys ih =>
    intro acc x hx
    rcases List.mem_cons.mp hx with h | h
    · subst h
      refine Nat.le_trans ?_ (foldl_if_max_acc_le f ys (if f x > acc then f x else acc))
      split <;> omega
    · exact ih _ x h

lemma foldl_add_shift (f : α → Nat) : ∀ (l : List α) (acc : Nat),
    l.foldl (fun cur v => cur + f v) acc = acc + (l.map f).sum := by
  intro l
  induction l with
  | nil => intro acc; simp
  | cons x xs ih =>
    intro acc
    simp [List.foldl_cons, ih, Nat.add_assoc]

lemma row_width_eq_sum (m : Nat) (row : List (Nat × Nat)) :
    row_width m row = (row.map (fun cs => cs.1 + 2 * m)).sum := by
  unfold row_width
  rw [foldl_add_shift]
  simp

lemma chunksOfFuel_congr (k : Nat) : ∀ (f1 f2 : Nat) (l : List α),
    l.length ≤ f1 → l.length ≤ f2 → chunksOfFuel k f1 l = chunksOfFuel k f2 l := by
  intro f1
  induction f1 with
  | zero =>
    intro f2 l h1 _
    have hl : l = [] := List.eq_nil_of_length_eq_zero (Nat.le_zero.mp h1)
    subst hl
    cases f2 <;> rfl
  | succ f ih =>
    intro f2 l h1 h2
    match l, f2 with
    | [], f2 => cases f2 <;> rfl
    | x :: rest, 0 => exact absurd h2 (by simp)
    | x :: rest, f2 + 1 =>
      simp only [chunksOfFuel]
      congr 1
      apply ih
      · simp only [List.length_drop]
        simp at h1
        omega
      · simp only [List.length_drop]
        simp at h2
        omega

lemma chunksOf_cons (k : Nat) (x : α) (rest : List α) :
    chunksOf k (x :: rest) = (x :: rest.take (k - 1)) :: chunksOf k (rest.drop (k - 1)) := by
  unfold chunksOf
  simp only [List.length_cons, chunksOfFuel]
  congr 1
  apply chunksOfFuel_congr
  · simp only [List.length_drop]
    omega
  · exact Nat.le_refl _

lemma chunksOf_map (k : Nat) (f : α → β) (l : List α) :
    chunksOf k (l.map f) = (chunksOf k l).map (List.map f) := by
  have aux : ∀ (n : Nat) (l : List α), l.length ≤ n →
      chunksOf k (l.map f) = (chunksOf k l).map (List.map f) := by
    intro n
    induction n with
    | zero =>
      intro l h
      have hl : l = [] := List.eq_nil_of_length_eq_zero (Nat.le_zero.mp h)
      subst hl
      rfl
    | succ n ih =>
      intro l h
      match l with
      | [] => rfl
      | x :: rest =>
        rw [List.map_cons, chunksOf_cons, chunksOf_cons]
        rw [← List.map_take, ← List.map_drop]
        rw [ih (rest.drop (k - 1)) (by simp only [List.length_drop]; simp at h; omega)]
        simp
  exact aux l.length l (Nat.le_refl _)

lemma chunksOf_length (k : Nat) (hk : 0 < k) (l : List α) :
    (chunksOf k l).length = (l.length + k - 1) / k := by
  have aux : ∀ (n : Nat) (l : List α), l.length ≤ n →
      (chunksOf k l).length = (l.length + k - 1) / k := by
    intro n
    induction n with
    | zero =>
      intro l h
      have hl : l = [] := List.eq_nil_of_length_eq_zero (Nat.le_zero.mp h)
      subst hl
      simp only [chunksOf, chunksOfFuel, List.length_nil]
      symm
      apply Nat.div_eq_of_lt
      omega
    | succ n ih =>
      intro l h
      match l with
      | [] =>
        simp only [chunksOf, chunksOfFuel, List.length_nil]
        symm
        apply Nat.div_eq_of_lt
        omega
      | x :: rest =>
        rw [chunksOf_cons]
        simp only [List.length_cons]
        rw [ih (rest.drop (k - 1)) (by simp only [List.length_drop]; simp at h; omega)]
        simp only [List.length_drop]
        by_cases hr : k - 1 ≤ rest.length
        · have h1 : rest.length - (k - 1) + k - 1 = rest.length := by omega
          have h2 : rest.length + 1 + k - 1 = rest.length + k := by omega
          rw [h1, h2, Nat.add_div_right _ hk]
        · have h1 : rest.length - (k - 1) + k - 1 = 0 + k - 1 := by omega
          have h2 : rest.length + 1 + k - 1 = rest.length + k := by omega
          rw [h1, h2, Nat.div_eq_of_lt (by omega : 0 + k - 1 < k)]
          symm
          apply Nat.div_eq_of_lt_le
          · omega
          · have : (1 + 1) * k = k + k := by ring
            omega
  exact aux l.length l (Nat.le_refl _)

lemma ceil_sqrt_scan_spec (n : Nat) : ∀ (fuel k : Nat),
    n ≤ (k + fuel) * (k + fuel) →
    n ≤ ceil_sqrt_scan n fuel k * ceil_sqrt_scan n fuel k ∧
      (∀ j, k ≤ j → n ≤ j * j → ceil_sqrt_scan n fuel k ≤ j) ∧
      k ≤ ceil_sqrt_scan n fuel k := by
  intro fuel
  induction fuel with
  | zero =>
    intro k hk
    simp only [ceil_sqrt_scan]
    exact ⟨by simpa using hk, fun j hj _ => hj, Nat.le_refl k⟩
  | succ fuel ih =>
    intro k hk
    simp only [ceil_sqrt_scan]
    split
    · rename_i hle
      exact ⟨hle, fun j hj _ => hj, Nat.le_refl k⟩
    · rename_i hgt
      have hk' : n ≤ (k + 1 + fuel) * (k + 1 + fuel) := by
        have : k + 1 + fuel = k + (fuel + 1) := by omega
        rw [this]
        exact hk
      obtain ⟨h1, h2, h3⟩ := ih (k + 1) hk'
      refine ⟨h1, ?_, by omega⟩
      intro j hj hjj
      have : j ≠ k := by
        intro hcontra
        subst hcontra
        exact hgt hjj
      exact h2 j (by omega) hjj

lemma chars_per_row_spec (n : Nat) :
    n ≤ chars_per_row n * chars_per_row n ∧
      ∀ j, n ≤ j * j → chars_per_row n ≤ j := by
  have hn : n ≤ (0 + n) * (0 + n) := by
    cases n with
    | zero => simp
    | succ p =>
      simp only [Nat.zero_add]
      calc p + 1 = (p + 1) * 1 := by ring
        _ ≤ (p + 1) * (p + 1) := Nat.mul_le_mul_left _ (by omega)
  obtain ⟨h1, h2, _⟩ := ceil_sqrt_scan_spec n n 0 hn
  exact ⟨h1, fun j hj => h2 j (Nat.zero_le j) hj⟩

lemma chars_per_row_pos {n : Nat} (hn : 0 < n) : 0 < chars_per_row n := by
  obtain ⟨h1, _⟩ := chars_per_row_spec n
  by_contra hc
  have : chars_per_row n = 0 := by omega
  rw [this] at h1
  omega

lemma atlas_rows_bounds (n cpr : Nat) (h : 0 < cpr) :
    n ≤ atlas_rows n cpr * cpr ∧ atlas_rows n cpr * cpr < n + cpr := by
  have hle := Nat.div_mul_le_self n cpr
  unfold atlas_rows
  simp only
  split
  · rename_i hc
    exact ⟨hc, by omega⟩
  · rename_i hc
    push_neg at hc
    have hmod := Nat.mod_lt n h
    have hqr := Nat.div_add_mod n cpr
    have hsucc : (n / cpr + 1) * cpr = n / cpr * cpr + cpr := by ring
    have hcomm : cpr * (n / cpr) = n / cpr * cpr := Nat.mul_comm _ _
    constructor
    · omega
    · omega

lemma atlas_rows_eq_pred_div (n cpr : Nat) (h : 0 < cpr) :
    atlas_rows n cpr = (n + cpr - 1) / cpr := by
  obtain ⟨h1, h2⟩ := atlas_rows_bounds n cpr h
  symm
  apply Nat.div_eq_of_lt_le
  · omega
  · have : (atlas_rows n cpr + 1) * cpr = atlas_rows n cpr * cpr + cpr := by ring
    omega

lemma set_lookup_cases {cmap : List (Option Character)} {code i : Nat}
    {v : Option Character} {ch : Character}
    (h : (cmap.set code v)[i]? = some (some ch)) :
    cmap[i]? = some (some ch) ∨ (code = i ∧ v = some ch) := by
  rw [List.getElem?_set] at h
  split_ifs at h with h1 h2
  · exact Or.inr ⟨h1, by injection h⟩
  · exact Or.inl h

lemma place_chars_length (tw th mh m cpr : Nat) :
    ∀ (l : List CharInput) (dx my cir : Nat) (cmap : List (Option Character)),
    (place_chars tw th mh m cpr l dx my cir cmap).length = cmap.length := by
  intro l
  induction l with
  | nil => intro dx my cir cmap; rfl
  | cons c rest ih =>
    intro dx my cir cmap
    rw [place_chars_cons]
    split <;> rw [ih] <;> exact List.length_set cmap c.code _

lemma place_chars_origin (tw th mh m cpr : Nat) :
    ∀ (l : List CharInput) (dx my cir : Nat) (cmap : List (Option Character))
      (i : Nat) (ch : Character),
    (place_chars tw th mh m cpr l dx my cir cmap)[i]? = some (some ch) →
    cmap[i]? = some (some ch) ∨ ∃ c ∈ l, c.code = i ∧ ch.width = c.width + m + 1 := by
  intro l
  induction l with
  | nil =>
    intro dx my cir cmap i ch h
    exact Or.inl h
  | cons c rest ih =>
    intro dx my cir cmap i ch h
    rw [place_chars_cons] at h
    have handle : ∀ {dx2 my2 cir2 : Nat},
        (place_chars tw th mh m cpr rest dx2 my2 cir2
          (cmap.set c.code (some (Character.new tw th dx my (dx + c.width + 2 * m - m)
            (my + mh - 1)))))[i]? = some (some ch) →
        cmap[i]? = some (some ch) ∨
          ∃ c2 ∈ c :: rest, c2.code = i ∧ ch.width = c2.width + m + 1 := by
      intro dx2 my2 cir2 h2
      rcases ih _ _ _ _ _ _ h2 with hin | ⟨c2, hc2, hcode, hw⟩
      · rcases set_lookup_cases hin with horig | ⟨hcode, hv⟩
        · exact Or.inl horig
        · refine Or.inr ⟨c, List.mem_cons_self c rest, hcode, ?_⟩
          have hch : some (Character.new tw th dx my (dx + c.width + 2 * m - m)
              (my + mh - 1)) = some ch := hv
          injection hch with hch'
          rw [← hch']
          simp only [Character.new]
          omega
      · exact Or.inr ⟨c2, List.mem_cons_of_mem c hc2, hcode, hw⟩
    split at h
    · exact handle h
    · exact handle h

lemma place_chars_some_persists (tw th mh m cpr : Nat) :
    ∀ (l : List CharInput) (dx my cir : Nat) (cmap : List (Option Character))
      (i : Nat) (ch : Character),
    cmap[i]? = some (some ch) →
    ∃ ch2, (place_chars tw th mh m cpr l dx my cir cmap)[i]? = some (some ch2) := by
  intro l
  induction l with
  | nil =>
    intro dx my cir cmap i ch h
    exact ⟨ch, h⟩
  | cons c rest ih =>
    intro dx my cir cmap i ch h
    have hilen : i < cmap.length := by
      by_contra hge
      rw [List.getElem?_eq_none (by omega)] at h
      cases h
    rw [place_chars_cons]
    by_cases hci : c.code = i
    · subst hci
      have hset : (cmap.set c.code (some (Character.new tw th dx my
          (dx + c.width + 2 * m - m) (my + mh - 1))))[c.code]? =
          some (some (Character.new tw th dx my (dx + c.width + 2 * m - m) (my + mh - 1))) := by
        rw [List.getElem?_set]
        simp [hilen]
      split
      · exact ih _ _ _ _ _ _ hset
      · exact ih _ _ _ _ _ _ hset
    · have hset : (cmap.set c.code (some (Character.new tw th dx my
          (dx + c.width + 2 * m - m) (my + mh - 1))))[i]? = some (some ch) := by
        rw [List.getElem?_set_ne hci]
        exact h
      split
      · exact ih _ _ _ _ _ _ hset
      · exact ih _ _ _ _ _ _ hset

lemma place_chars_mem_code (tw th mh m cpr : Nat) :
    ∀ (l : List CharInput) (dx my cir : Nat) (cmap : List (Option Character)),
    ∀ c ∈ l, c.code < cmap.length →
    ∃ ch, (place_chars tw th mh m cpr l dx my cir cmap)[c.code]? = some (some ch) := by
  intro l
  induction l with
  | nil =>
    intro dx my cir cmap c hc
    cases hc
  | cons c0 rest ih =>
    intro dx my cir cmap c hc hlen
    rw [place_chars_cons]
    rcases List.mem_cons.mp hc with h | h
    · subst h
      have hset : (cmap.set c.code (some (Character.new tw th dx my
          (dx + c.width + 2 * m - m) (my + mh - 1))))[c.code]? =
          some (some (Character.new tw th dx my (dx + c.width + 2 * m - m) (my + mh - 1))) := by
        rw [List.getElem?_set]
        simp [hlen]
      split
      · exact place_chars_some_persists tw th mh m cpr rest _ _ _ _ _ _ hset
      · exact place_chars_some_persists tw th mh m cpr rest _ _ _ _ _ _ hset
    · have hlen2 : c.code < (cmap.set c0.code (some (Character.new tw th dx my
          (dx + c0.width + 2 * m - m) (my + mh - 1)))).length := by
        rw [List.length_set]
        exact hlen
      split
      · exact ih _ _ _ _ c h hlen2
      · exact ih _ _ _ _ c h hlen2

lemma place_chars_not_mem (tw th mh m cpr : Nat) :
    ∀ (l : List CharInput) (dx my cir : Nat) (cmap : List (Option Character)) (i : Nat),
    (∀ c ∈ l, c.code ≠ i) →
    (place_chars tw th mh m cpr l dx my cir cmap)[i]? = cmap[i]? := by
  intro l
  induction l with
  | nil =>
    intro dx my cir cmap i _
    rfl
  | cons c rest ih =>
    intro dx my cir cmap i hne
    rw [place_chars_cons]
    have hci : c.code ≠ i := hne c (List.mem_cons_self c rest)
    have hrest : ∀ c2 ∈ rest, c2.code ≠ i := fun c2 hc2 => hne c2 (List.mem_cons_of_mem c hc2)
    split
    · rw [ih _ _ _ _ _ hrest, List.getElem?_set_ne hci]
    · rw [ih _ _ _ _ _ hrest, List.getElem?_set_ne hci]

lemma character_new_bounds {tw th minx miny maxx maxy : Nat}
    (h1 : minx ≤ maxx) (h2 : maxx ≤ tw + 1) (h3 : miny ≤ maxy) (h4 : maxy ≤ th + 1) :
    0 ≤ (Character.new tw th minx miny maxx maxy).min_u ∧
    (Character.new tw th minx miny maxx maxy).min_u ≤
      (Character.new tw th minx miny maxx maxy).max_u ∧
    (Character.new tw th minx miny maxx maxy).max_u ≤ 1 ∧
    0 ≤ (Character.new tw th minx miny maxx maxy).max_v ∧
    (Character.new tw th minx miny maxx maxy).max_v ≤
      (Character.new tw th minx miny maxx maxy).min_v ∧
    (Character.new tw th minx miny maxx maxy).min_v ≤ 1 := by
  have hwpos : (0 : ℚ) < (tw : ℚ) + 1 := by positivity
  have hhpos : (0 : ℚ) < (th : ℚ) + 1 := by positivity
  simp only [Character.new]
  refine ⟨?_, ?_, ?_, ?_, ?_, ?_⟩
  · positivity
  · exact div_le_div_of_nonneg_right (by exact_mod_cast h1) (le_of_lt hwpos)
  · rw [div_le_one hwpos]
    exact_mod_cast h2
  · positivity
  · exact div_le_div_of_nonneg_right (by exact_mod_cast h3) (le_of_lt hhpos)
  · rw [div_le_one hhpos]
    exact_mod_cast h4

lemma place_chars_bounds (tw th mh m cpr : Nat) (hmh : 0 < mh) (hcpr : 0 < cpr) :
    ∀ (l : List CharInput) (dx my cir : Nat) (cmap : List (Option Character)),
    cir < cpr →
    dx + row_width m (char_sizes (l.take (cpr - cir))) ≤ tw →
    (∀ r ∈ chunksOf cpr (l.drop (cpr - cir)), row_width m (char_sizes r) ≤ tw) →
    (l ≠ [] → my + mh * (1 + (chunksOf cpr (l.drop (cpr - cir))).length) ≤ th) →
    (∀ oc ∈ cmap, ∀ ch, oc = some ch →
      0 ≤ ch.min_u ∧ ch.min_u ≤ ch.max_u ∧ ch.max_u ≤ 1 ∧
      0 ≤ ch.max_v ∧ ch.max_v ≤ ch.min_v ∧ ch.min_v ≤ 1) →
    ∀ oc ∈ place_chars tw th mh m cpr l dx my cir cmap, ∀ ch, oc = some ch →
      0 ≤ ch.min_u ∧ ch.min_u ≤ ch.max_u ∧ ch.max_u ≤ 1 ∧
      0 ≤ ch.max_v ∧ ch.max_v ≤ ch.min_v ∧ ch.min_v ≤ 1 := by
  intro l
  induction l with
  | nil =>
    intro dx my cir cmap _ _ _ _ hprev
    exact hprev
  | cons c rest ih =>
    intro dx my cir cmap hcir hrow hrest hy hprev
    have hk1 : 1 ≤ cpr - cir := by omega
    have hsub : cpr - cir = (cpr - cir - 1) + 1 := by omega
    have htake : (c :: rest).take (cpr - cir) = c :: rest.take (cpr - cir - 1) := by
      rw [hsub, List.take_succ_cons]
      simp
    have hdrop : (c :: rest).drop (cpr - cir) = rest.drop (cpr - cir - 1) := by
      rw [hsub, List.drop_succ_cons]
      simp
    have hsplit : row_width m (char_sizes (c :: rest.take (cpr - cir - 1))) =
        (c.width + 2 * m) + row_width m (char_sizes (rest.take (cpr - cir - 1))) := by
      simp [char_sizes, row_width_eq_sum]
    rw [htake, hsplit] at hrow
    have hy2 : my + mh ≤ th := by
      have h0 := hy (by simp)
      have hle : mh ≤ mh * (1 + (chunksOf cpr ((c :: rest).drop (cpr - cir))).length) :=
        Nat.le_mul_of_pos_right mh (by omega)
      omega
    have hch_bounds := character_new_bounds
      (by omega : dx ≤ dx + c.width + 2 * m - m)
      (by omega : dx + c.width + 2 * m - m ≤ tw + 1)
      (by omega : my ≤ my + mh - 1)
      (by omega : my + mh - 1 ≤ th + 1)
    have hprev2 : ∀ oc ∈ cmap.set c.code (some (Character.new tw th dx my
        (dx + c.width + 2 * m - m) (my + mh - 1))), ∀ ch, oc = some ch →
        0 ≤ ch.min_u ∧ ch.min_u ≤ ch.max_u ∧ ch.max_u ≤ 1 ∧
        0 ≤ ch.max_v ∧ ch.max_v ≤ ch.min_v ∧ ch.min_v ≤ 1 := by
      intro oc hoc ch hch
      rcases List.mem_or_eq_of_mem_set hoc with hmem | heq
      · exact hprev oc hmem ch hch
      · rw [heq] at hch
        injection hch with hch'
        rw [← hch']
        exact hch_bounds
    rw [place_chars_cons]
    split
    · rename_i hwrap
      have hcir' : cir = cpr - 1 := by omega
      have hdrop0 : (c :: rest).drop (cpr - cir) = rest := by
        rw [hdrop]
        have : cpr - cir - 1 = 0 := by omega
        rw [this, List.drop_zero]
      refine ih 0 (my + mh) 0 _ hcpr ?_ ?_ ?_ hprev2
      · -- row bound for the fresh row
        rw [Nat.sub_zero]
        match rest with
        | [] => simp [char_sizes, row_width]
        | y :: rest2 =>
          have htk : (y :: rest2).take cpr = y :: rest2.take (cpr - 1) := by
            have : cpr = (cpr - 1) + 1 := by omega
            rw [this, List.take_succ_cons]
            simp
          rw [htk]
          have hmem : (y :: rest2.take (cpr - 1)) ∈ chunksOf cpr (y :: rest2) := by
            rw [chunksOf_cons]
            exact List.mem_cons_self _ _
          rw [hdrop0] at hrest
          have := hrest _ hmem
          omega
      · -- later rows bound for the fresh state
        rw [Nat.sub_zero]
        match rest with
        | [] => intro r hr; simp [chunksOf, chunksOfFuel] at hr
        | y :: rest2 =>
          intro r hr
          rw [hdrop0] at hrest
          apply hrest
          rw [chunksOf_cons]
          refine List.mem_cons_of_mem _ ?_
          have hdr : (y :: rest2).drop cpr = rest2.drop (cpr - 1) := by
            have : cpr = (cpr - 1) + 1 := by omega
            rw [this, List.drop_succ_cons]
            simp
          rw [hdr] at hr
          exact hr
      · -- height bound for the fresh state
        rw [Nat.sub_zero]
        intro hne
        match rest, hne with
        | y :: rest2, _ =>
          have h0 := hy (by simp)
          rw [hdrop0] at h0
          have hdr : (y :: rest2).drop cpr = rest2.drop (cpr - 1) := by
            have : cpr = (cpr - 1) + 1 := by omega
            rw [this, List.drop_succ_cons]
            simp
          have hcount : (chunksOf cpr (y :: rest2)).length =
              1 + (chunksOf cpr ((y :: rest2).drop cpr)).length := by
            rw [chunksOf_cons, hdr]
            simp [Nat.add_comm]
          rw [hcount] at h0
          have hring : mh * (1 + (1 + (chunksOf cpr ((y :: rest2).drop cpr)).length)) =
              mh + mh * (1 + (chunksOf cpr ((y :: rest2).drop cpr)).length) := by ring
          omega
    · rename_i hnw
      have hsub2 : cpr - (cir + 1) = cpr - cir - 1 := by omega
      refine ih (dx + c.width + 2 * m) my (cir + 1) _ (by omega) ?_ ?_ ?_ hprev2
      · rw [hsub2]
        omega
      · rw [hsub2, ← hdrop]
        exact hrest
      · intro hne
        rw [hsub2, ← hdrop]
        exact hy (by simp)

lemma foldl_if_max_eq_foldr (f : α → Nat) : ∀ (L : List α) (acc : Nat),
    L.foldl (fun mx v => if f v > mx then f v else mx) acc =
      max acc ((L.map f).foldr max 0) := by
  intro L
  induction L with
  | nil => intro acc; simp
  | cons x xs ih =>
    intro acc
    simp only [List.foldl_cons, List.map_cons, List.foldr_cons, ih]
    split <;> omega

/-- C9: the pixel width stored in a packed `Character` — the width later used
for pen advancement and `total_width` — is the rasterizer-measured character
width plus the stroke line margin plus one, because `max_x` is placed at
`min_x + width + 2·margin − margin` and `Character::new` stores
`max_x − min_x + 1`. -/
theorem c9_stored_width_is_measured_width_plus_margin_plus_one
    (font_size : Nat) (line_width : ℚ) (font_id : Nat) (inputs : List CharInput)
    (code : Nat) (ch : Character)
    (h : (Font.new font_size line_width font_id inputs).characters[code]? = some (some ch)) :
    ∃ c ∈ inputs, c.code = code ∧
      ch.width = c.width + line_margin line_width font_size + 1 := by
  have hchars : (Font.new font_size line_width font_id inputs).characters =
      place_chars
        (atlas_width (line_margin line_width font_size) (chars_per_row inputs.length)
          (char_sizes inputs))
        (atlas_height inputs) (max_height inputs) (line_margin line_width font_size)
        (chars_per_row inputs.length) inputs 0 0 0
        (List.replicate (max_char_code inputs + 1) none) := rfl
  rw [hchars] at h
  rcases place_chars_origin _ _ _ _ _ inputs 0 0 0 _ code ch h with hrep | hfound
  · rw [List.getElem?_replicate] at hrep
    split_ifs at hrep
    simp at hrep
  · exact hfound

/-- C9, witness: the statement applied to the one-character atlas built from
code point 3 with measured width 3 and height 2 (so margin 0, stored width 4). -/
theorem c9_stored_width_witness :
    ((Font.new 10 0 0 [{ code := 3, width := 3, height := 2 }]).characters[3]? =
      some (some (Character.new 3 2 0 0 3 1))) ∧
    (∃ c ∈ ([{ code := 3, width := 3, height := 2 }] : List CharInput), c.code = 3 ∧
      (Character.new 3 2 0 0 3 1).width = c.width + line_margin 0 10 + 1) := by
  have h : (Font.new 10 0 0 [{ code := 3, width := 3, height := 2 }]).characters[3]? =
      some (some (Character.new 3 2 0 0 3 1)) := by
    simp [Font.new, place_chars, line_margin, chars_per_row, ceil_sqrt_scan, atlas_rows,
      atlas_height, atlas_width, chunksOf, chunksOfFuel, row_width, char_sizes, max_height,
      max_char_code, List.replicate, List.set]
  exact ⟨h, c9_stored_width_is_measured_width_plus_margin_plus_one 10 0 0 _ 3 _ h⟩

/-- C1, counterexample: in the atlas built for the single code point 3 with
measured width 3 and height 2, the stored glyph rectangle has
`min_v = get_bottom_v = 1/3` and `max_v = get_top_v = 0`, so the claimed
invariant `min_v ≤ max_v` is false — `Character::new` computes `min_v` from
the raster-maximum row `max_y` and `max_v` from `min_y`, which reverses the
order. -/
theorem c1_counterexample_bottom_v_exceeds_top_v :
    ∃ ch : Character,
      (Font.new 10 0 0 [{ code := 3, width := 3, height := 2 }]).characters[3]? =
        some (some ch) ∧
      ¬ ch.min_v ≤ ch.max_v := by
  refine ⟨Character.new 3 2 0 0 3 1, ?_, ?_⟩
  · simp [Font.new, place_chars, line_margin, chars_per_row, ceil_sqrt_scan, atlas_rows,
      atlas_height, atlas_width, chunksOf, chunksOfFuel, row_width, char_sizes, max_height,
      max_char_code, List.replicate, List.set]
  · simp only [Character.new, not_le]
    norm_num

/-- C1, amended: for a non-empty character set with positive probed glyph
height, `Font::new` produces exactly one `Character` per distinct code point
(the table holds an entry exactly for the code points of the input set), and
every produced `Character` satisfies `0 ≤ min_u ≤ max_u ≤ 1` and
`0 ≤ max_v ≤ min_v ≤ 1` — on the V axis the inequality is reversed relative
to the claim: `get_top_v ≤ get_bottom_v`, reflecting the raster-to-texture
V-axis flip performed by `Character::new`. -/
theorem c1_amended_one_rect_per_code_point_with_flipped_v_order
    (font_size : Nat) (line_width : ℚ) (font_id : Nat) (inputs : List CharInput)
    (hne : inputs ≠ []) (hmh : 0 < max_height inputs) :
    (∀ code : Nat,
      (∃ ch, (Font.new font_size line_width font_id inputs).characters[code]? =
        some (some ch)) ↔ code ∈ inputs.map (fun c => c.code)) ∧
    (∀ oc ∈ (Font.new font_size line_width font_id inputs).characters, ∀ ch, oc = some ch →
      0 ≤ ch.min_u ∧ ch.min_u ≤ ch.max_u ∧ ch.max_u ≤ 1 ∧
      0 ≤ ch.max_v ∧ ch.max_v ≤ ch.min_v ∧ ch.min_v ≤ 1) := by
  have hnpos : 0 < inputs.length := List.length_pos.mpr hne
  have hcpr : 0 < chars_per_row inputs.length := chars_per_row_pos hnpos
  have hchars : (Font.new font_size line_width font_id inputs).characters =
      place_chars
        (atlas_width (line_margin line_width font_size) (chars_per_row inputs.length)
          (char_sizes inputs))
        (atlas_height inputs) (max_height inputs) (line_margin line_width font_size)
        (chars_per_row inputs.length) inputs 0 0 0
        (List.replicate (max_char_code inputs + 1) none) := rfl
  constructor
  · intro code
    constructor
    · rintro ⟨ch, hch⟩
      by_contra hnotmem
      have hne2 : ∀ c ∈ inputs, c.code ≠ code := by
        intro c hc hcontra
        exact hnotmem (List.mem_map.mpr ⟨c, hc, hcontra⟩)
      rw [hchars, place_chars_not_mem _ _ _ _ _ inputs _ _ _ _ _ hne2,
        List.getElem?_replicate] at hch
      split_ifs at hch
      simp at hch
    · intro hmem
      obtain ⟨c, hc, hcode⟩ := List.mem_map.mp hmem
      have hlt : c.code <
          (List.replicate (max_char_code inputs + 1) (none : Option Character)).length := by
        rw [List.length_replicate]
        have hle : c.code ≤ max_char_code inputs :=
          foldl_if_max_mem_le (fun c : CharInput => c.code) inputs 0 c hc
        omega
      rw [← hcode, hchars]
      exact place_chars_mem_code _ _ _ _ _ inputs 0 0 0 _ c hc hlt
  · rw [hchars]
    obtain ⟨c0, rest, rfl⟩ := List.exists_cons_of_ne_nil hne
    have hchunk_bound : ∀ r ∈ chunksOf (chars_per_row (c0 :: rest).length) (c0 :: rest),
        row_width (line_margin line_width font_size) (char_sizes r) ≤
          atlas_width (line_margin line_width font_size) (chars_per_row (c0 :: rest).length)
            (char_sizes (c0 :: rest)) := by
      intro r hr
      have hmem : char_sizes r ∈
          chunksOf (chars_per_row (c0 :: rest).length) (char_sizes (c0 :: rest)) := by
        unfold char_sizes
        rw [chunksOf_map]
        exact List.mem_map_of_mem _ hr
      exact foldl_if_max_mem_le (row_width (line_margin line_width font_size)) _ 0 _ hmem
    have htk : (c0 :: rest).take (chars_per_row (c0 :: rest).length) =
        c0 :: rest.take (chars_per_row (c0 :: rest).length - 1) := by
      have h1 : chars_per_row (c0 :: rest).length =
          (chars_per_row (c0 :: rest).length - 1) + 1 := by omega
      rw [h1, List.take_succ_cons]
      simp
    have hdr : (c0 :: rest).drop (chars_per_row (c0 :: rest).length) =
        rest.drop (chars_per_row (c0 :: rest).length - 1) := by
      have h1 : chars_per_row (c0 :: rest).length =
          (chars_per_row (c0 :: rest).length - 1) + 1 := by omega
      rw [h1, List.drop_succ_cons]
      simp
    have hchunks_cons : chunksOf (chars_per_row (c0 :: rest).length) (c0 :: rest) =
        (c0 :: rest.take (chars_per_row (c0 :: rest).length - 1)) ::
          chunksOf (chars_per_row (c0 :: rest).length)
            (rest.drop (chars_per_row (c0 :: rest).length - 1)) := chunksOf_cons _ _ _
    apply place_chars_bounds _ _ _ _ _ hmh hcpr (c0 :: rest) 0 0 0 _ hcpr
    · rw [Nat.sub_zero, htk]
      have hmem : (c0 :: rest.take (chars_per_row (c0 :: rest).length - 1)) ∈
          chunksOf (chars_per_row (c0 :: rest).length) (c0 :: rest) := by
        rw [hchunks_cons]
        exact List.mem_cons_self _ _
      have := hchunk_bound _ hmem
      omega
    · rw [Nat.sub_zero, hdr]
      intro r hr
      apply hchunk_bound
      rw [hchunks_cons]
      exact List.mem_cons_of_mem _ hr
    · intro _
      rw [Nat.sub_zero, hdr]
      have hcount : (chunksOf (chars_per_row (c0 :: rest).length) (c0 :: rest)).length =
          1 + (chunksOf (chars_per_row (c0 :: rest).length)
            (rest.drop (chars_per_row (c0 :: rest).length - 1))).length := by
        rw [hchunks_cons]
        simp [Nat.add_comm]
      have hrows : (chunksOf (chars_per_row (c0 :: rest).length) (c0 :: rest)).length =
          atlas_rows (c0 :: rest).length (chars_per_row (c0 :: rest).length) := by
        rw [chunksOf_length _ hcpr, atlas_rows_eq_pred_div _ _ hcpr]
      have hth : atlas_height (c0 :: rest) =
          atlas_rows (c0 :: rest).length (chars_per_row (c0 :: rest).length) *
            max_height (c0 :: rest) := rfl
      rw [hth, ← hrows, hcount]
      have : max_height (c0 :: rest) *
          (1 + (chunksOf (chars_per_row (c0 :: rest).length)
            (rest.drop (chars_per_row (c0 :: rest).length - 1))).length) =
          (1 + (chunksOf (chars_per_row (c0 :: rest).length)
            (rest.drop (chars_per_row (c0 :: rest).length - 1))).length) *
            max_height (c0 :: rest) := Nat.mul_comm _ _
      omega
    · intro oc hoc ch hch
      rw [List.eq_of_mem_replicate hoc] at hch
      simp at hch

/-- C1, witness: the amended statement applied to the one-character input set
`{code 3, width 3, height 2}`. -/
theorem c1_amended_witness :
    (([{ code := 3, width := 3, height := 2 }] : List CharInput) ≠ [] ∧
      0 < max_height [{ code := 3, width := 3, height := 2 }]) ∧
    ((∀ code : Nat,
      (∃ ch, (Font.new 10 0 0 [{ code := 3, width := 3, height := 2 }]).characters[code]? =
        some (some ch)) ↔
        code ∈ ([{ code := 3, width := 3, height := 2 }] : List CharInput).map
          (fun c => c.code)) ∧
    (∀ oc ∈ (Font.new 10 0 0 [{ code := 3, width := 3, height := 2 }]).characters,
      ∀ ch, oc = some ch →
      0 ≤ ch.min_u ∧ ch.min_u ≤ ch.max_u ∧ ch.max_u ≤ 1 ∧
      0 ≤ ch.max_v ∧ ch.max_v ≤ ch.min_v ∧ ch.min_v ≤ 1)) := by
  refine ⟨⟨by simp, by decide⟩, ?_⟩
  exact c1_amended_one_rect_per_code_point_with_flipped_v_order 10 0 0 _ (by simp) (by decide)

lemma chars_per_row_eq_ceil_sqrt (n : Nat) :
    chars_per_row n = ⌈Real.sqrt n⌉₊ := by
  obtain ⟨h1, h2⟩ := chars_per_row_spec n
  refine le_antisymm ?_ ?_
  · apply h2
    have hnn : (0 : ℝ) ≤ (n : ℝ) := by positivity
    have hle : Real.sqrt n ≤ (⌈Real.sqrt n⌉₊ : ℝ) := Nat.le_ceil _
    have hsq : (n : ℝ) ≤ (⌈Real.sqrt n⌉₊ : ℝ) ^ 2 := by
      calc (n : ℝ) = Real.sqrt n ^ 2 := (Real.sq_sqrt hnn).symm
        _ ≤ (⌈Real.sqrt n⌉₊ : ℝ) ^ 2 := by
            exact pow_le_pow_left₀ (Real.sqrt_nonneg _) hle 2
    have hnat : n ≤ ⌈Real.sqrt n⌉₊ ^ 2 := by exact_mod_cast hsq
    rw [pow_two] at hnat
    exact hnat
  · apply Nat.ceil_le.mpr
    have hbound : Real.sqrt n ≤ Real.sqrt ((chars_per_row n : ℝ) * (chars_per_row n : ℝ)) :=
      Real.sqrt_le_sqrt (by exact_mod_cast h1)
    have hval : Real.sqrt ((chars_per_row n : ℝ) * (chars_per_row n : ℝ)) =
        (chars_per_row n : ℝ) := by
      rw [← pow_two]
      exact Real.sqrt_sq (by positivity)
    rw [hval] at hbound
    exact hbound

lemma atlas_rows_eq_ceil_div (n cpr : Nat) (hcpr : 0 < cpr) :
    atlas_rows n cpr = ⌈(n : ℚ) / (cpr : ℚ)⌉₊ := by
  obtain ⟨hb1, hb2⟩ := atlas_rows_bounds n cpr hcpr
  have hcprQ : (0 : ℚ) < (cpr : ℚ) := by exact_mod_cast hcpr
  refine le_antisymm ?_ ?_
  · rcases Nat.eq_zero_or_pos (atlas_rows n cpr) with hr0 | hrpos
    · rw [hr0]
      exact Nat.zero_le _
    · have hsm : atlas_rows n cpr * cpr = (atlas_rows n cpr - 1) * cpr + cpr := by
        have h1 : atlas_rows n cpr = (atlas_rows n cpr - 1) + 1 := by omega
        calc atlas_rows n cpr * cpr = ((atlas_rows n cpr - 1) + 1) * cpr := by rw [← h1]
          _ = (atlas_rows n cpr - 1) * cpr + cpr := by ring
      have hlt : (atlas_rows n cpr - 1) * cpr < n := by omega
      have hcast : ((atlas_rows n cpr - 1 : Nat) : ℚ) < (n : ℚ) / (cpr : ℚ) := by
        rw [lt_div_iff₀ hcprQ]
        exact_mod_cast hlt
      have := Nat.lt_ceil.mpr hcast
      omega
  · apply Nat.ceil_le.mpr
    rw [div_le_iff₀ hcprQ]
    exact_mod_cast hb1

/-- C5: for a non-empty character sequence, the atlas packer computes
`margin = ⌈2 · line_width · font_size⌉`, column count `⌈√n⌉`, row count
`⌈n / columns⌉`, an atlas pixel width equal to the maximum over the row-major
rows of `Σ (glyph width + 2·margin)`, and an atlas pixel height of
`rows · maxGlyphHeight`. -/
theorem c5_margin_grid_and_atlas_dimensions
    (font_size : Nat) (line_width : ℚ) (inputs : List CharInput) (hne : inputs ≠ []) :
    line_margin line_width font_size = ⌈2 * line_width * (font_size : ℚ)⌉₊ ∧
    chars_per_row inputs.length = ⌈Real.sqrt inputs.length⌉₊ ∧
    atlas_rows inputs.length (chars_per_row inputs.length) =
      ⌈(inputs.length : ℚ) / (chars_per_row inputs.length : ℚ)⌉₊ ∧
    atlas_width (line_margin line_width font_size) (chars_per_row inputs.length)
        (char_sizes inputs) =
      ((chunksOf (chars_per_row inputs.length) (char_sizes inputs)).map
        (fun row => (row.map
          (fun cs => cs.1 + 2 * line_margin line_width font_size)).sum)).foldr max 0 ∧
    atlas_height inputs =
      atlas_rows inputs.length (chars_per_row inputs.length) * max_height inputs := by
  have hnpos : 0 < inputs.length := List.length_pos.mpr hne
  have hcpr : 0 < chars_per_row inputs.length := chars_per_row_pos hnpos
  refine ⟨Int.ceil_toNat _, chars_per_row_eq_ceil_sqrt _, atlas_rows_eq_ceil_div _ _ hcpr,
    ?_, rfl⟩
  unfold atlas_width
  rw [foldl_if_max_eq_foldr (row_width (line_margin line_width font_size))]
  rw [Nat.zero_max]
  congr 1
  apply List.map_congr_left
  intro r _
  exact row_width_eq_sum _ r

/-- C5, witness: the statement applied to a 100-character input set; the grid
is then 10 columns by 10 rows, as the claim's example states. -/
theorem c5_margin_grid_witness :
    (List.replicate 100 ({ code := 3, width := 3, height := 2 } : CharInput) ≠ [] ∧
      chars_per_row (List.replicate 100
        ({ code := 3, width := 3, height := 2 } : CharInput)).length = 10 ∧
      atlas_rows 100 10 = 10) ∧
    (line_margin 0 10 = ⌈2 * (0 : ℚ) * ((10 : Nat) : ℚ)⌉₊ ∧
    chars_per_row (List.replicate 100
        ({ code := 3, width := 3, height := 2 } : CharInput)).length =
      ⌈Real.sqrt (List.replicate 100
        ({ code := 3, width := 3, height := 2 } : CharInput)).length⌉₊ ∧
    atlas_rows (List.replicate 100 ({ code := 3, width := 3, height := 2 } : CharInput)).length
        (chars_per_row (List.replicate 100
          ({ code := 3, width := 3, height := 2 } : CharInput)).length) =
      ⌈((List.replicate 100 ({ code := 3, width := 3, height := 2 } : CharInput)).length : ℚ) /
        ((chars_per_row (List.replicate 100
          ({ code := 3, width := 3, height := 2 } : CharInput)).length : Nat) : ℚ)⌉₊ ∧
    atlas_width (line_margin 0 10)
        (chars_per_row (List.replicate 100
          ({ code := 3, width := 3, height := 2 } : CharInput)).length)
        (char_sizes (List.replicate 100 ({ code := 3, width := 3, height := 2 } : CharInput))) =
      ((chunksOf (chars_per_row (List.replicate 100
          ({ code := 3, width := 3, height := 2 } : CharInput)).length)
        (char_sizes (List.replicate 100
          ({ code := 3, width := 3, height := 2 } : CharInput)))).map
        (fun row => (row.map (fun cs => cs.1 + 2 * line_margin 0 10)).sum)).foldr max 0 ∧
    atlas_height (List.replicate 100 ({ code := 3, width := 3, height := 2 } : CharInput)) =
      atlas_rows (List.replicate 100
          ({ code := 3, width := 3, height := 2 } : CharInput)).length
        (chars_per_row (List.replicate 100
          ({ code := 3, width := 3, height := 2 } : CharInput)).length) *
        max_height (List.replicate 100 ({ code := 3, width := 3, height := 2 } : CharInput))) := by
  refine ⟨⟨by simp, by decide, by decide⟩, ?_⟩
  exact c5_margin_grid_and_atlas_dimensions 10 0 _ (by simp)

end WasmuriText
